import Mathlib

/-!
Shallow embedding of `src/object_pool.rs` (dgski/object_pool_rs).

The Rust pool stores every instance in `items : Vec<Box<T>>` and keeps a
free list `available : Vec<*mut T>` of raw pointers into those boxes.
Box contents have stable addresses, so we model an address as a `Nat`
drawn from a monotone allocation counter `nextAddr`; `items` is the
storage sequence of (address, value) pairs in push order, and
`available` is the free-list stack with the list head as the top
(Rust `Vec::push`/`Vec::pop` operate at the back, which we place at the
head).  The `Poolable` trait (`new` / `reset`) becomes a structure of a
default value and a reset function.
-/

namespace ObjectPoolRs

/-- The Poolable trait from the source: a default constructor and an
in-place reset, modelled as a value and a pure function. -/
structure Poolable (T : Type) where
  new : T
  reset : T → T

/-- State of `ObjectPool<T>`: the owned storage sequence, the free list
of addresses (head = most recently pushed), and the allocation counter
producing fresh addresses for new boxes. -/
structure ObjectPool (T : Type) where
  items : List (Nat × T)
  available : List Nat
  nextAddr : Nat
deriving Repr

variable {T : Type}

/-- `ObjectPool::new()`: empty storage and empty free list. -/
def ObjectPool.mk0 : ObjectPool T :=
  { items := [], available := [], nextAddr := 0 }

/-- One iteration of the loop body of `ObjectPool::reserve`: construct a
box, push it into storage, push its address onto the free list. -/
def reserveOne (P : Poolable T) (p : ObjectPool T) : ObjectPool T :=
  { items := p.items ++ [(p.nextAddr, P.new)],
    available := p.nextAddr :: p.available,
    nextAddr := p.nextAddr + 1 }

/-- `ObjectPool::reserve(count)`: run the loop body `count` times. -/
def reserve (P : Poolable T) (p : ObjectPool T) : Nat → ObjectPool T
  | 0 => p
  | Nat.succ n => reserve P (reserveOne P p) n

/-- `ObjectPool::get()`: if the free list is empty, construct a new box,
push it into storage and return its address (the free list is not
touched); otherwise pop the top of the free list and return it.
Returns the handle together with the updated pool. -/
def get (P : Poolable T) (p : ObjectPool T) : Nat × ObjectPool T :=
  match p.available with
  | [] =>
      (p.nextAddr,
       { items := p.items ++ [(p.nextAddr, P.new)],
         available := [],
         nextAddr := p.nextAddr + 1 })
  | a :: rest => (a, { p with available := rest })

/-- `ObjectPool::release(item)`: reset the instance the handle points to
(an in-place write through the pointer, modelled as a positional map
over storage), then push the handle onto the free list. -/
def release (P : Poolable T) (p : ObjectPool T) (h : Nat) : ObjectPool T :=
  { p with
    items := p.items.map (fun av => if av.1 = h then (av.1, P.reset av.2) else av),
    available := h :: p.available }

/-- `ObjectPool::clear()`: drop all storage and the whole free list. -/
def clear (p : ObjectPool T) : ObjectPool T :=
  { p with items := [], available := [] }

/-- `ObjectPool::release_all()`: iterate storage in order, reset each
instance and push its address onto the free list.  The source does NOT
clear `available` first, so the pushes land on top of whatever the free
list already held; pushing in storage order with head-as-top yields the
reversed address sequence prepended. -/
def release_all (P : Poolable T) (p : ObjectPool T) : ObjectPool T :=
  { p with
    items := p.items.map (fun av => (av.1, P.reset av.2)),
    available := (p.items.map Prod.fst).reverse ++ p.available }

/-- `ObjectPool::len()`: size of storage. -/
def lenCount (p : ObjectPool T) : Nat := p.items.length

/-- `ObjectPool::available()`: size of the free list. -/
def availableCount (p : ObjectPool T) : Nat := p.available.length

/-- Addresses of the instances currently in storage. -/
def addrs (p : ObjectPool T) : List Nat := p.items.map Prod.fst

/-- Value stored at a given address, when the address is in storage. -/
def valueAt (p : ObjectPool T) (h : Nat) : Option T :=
  (p.items.find? (fun av => av.1 == h)).map Prod.snd

/-- A handle is outstanding when it refers to an instance in storage and
is not on the free list (returned by `get` and not yet released). -/
def Outstanding (p : ObjectPool T) (h : Nat) : Prop :=
  h ∈ addrs p ∧ h ∉ p.available

/-- State of `PoolBox<T>`: the wrapped raw handle, `none` standing for
the null pointer sentinel.  The owning pool is passed explicitly where
the Rust code dereferences the pool pointer. -/
structure PoolBox where
  item : Option Nat
deriving Repr

/-- `PoolBox::new(pool)`: call the pool's `get` and wrap the handle. -/
def PoolBox.make (P : Poolable T) (pool : ObjectPool T) : PoolBox × ObjectPool T :=
  let hp := get P pool
  (⟨some hp.1⟩, hp.2)

/-- `PoolBox::extract()`: return the tracked handle and replace it with
the null sentinel; the pool is not touched. -/
def extract (pb : PoolBox) : Option Nat × PoolBox :=
  (pb.item, ⟨none⟩)

/-- `impl Drop for PoolBox`: if the tracked handle is the null sentinel
do nothing, otherwise call the owning pool's `release` on it. -/
def dropPoolBox (P : Poolable T) (pb : PoolBox) (pool : ObjectPool T) : ObjectPool T :=
  match pb.item with
  | none => pool
  | some h => release P pool h

/-- The `TestObject` Poolable of the repository's tests: an integer
value constructed as 0 and reset to 0. -/
def testPoolable : Poolable Int :=
  { new := 0, reset := fun _ => 0 }

/-- A concrete pool with one instance whose handle is on the free list. -/
def poolW1 : ObjectPool Int := ⟨[(5, 7)], [5], 6⟩

/-- A concrete pool with one outstanding instance (handle 3 lent out). -/
def poolW2 : ObjectPool Int := ⟨[(3, 7)], [], 4⟩

/-- A freshly created concrete pool at the test element type. -/
def pool0 : ObjectPool Int := ObjectPool.mk0

/-- The mapping applied to a storage entry by `release` keeps the
address unchanged: the reset is an in-place write through the pointer. -/
theorem release_entry_fst (P : Poolable T) (h : Nat) (av : Nat × T) :
    (if av.1 = h then (av.1, P.reset av.2) else av).1 = av.1 := by
  by_cases hc : av.1 = h <;> simp [hc]

/-- Searching by address commutes with any storage map that preserves
addresses. -/
theorem find?_map_fst (f : Nat × T → Nat × T) (hf : ∀ av, (f av).1 = av.1)
    (l : List (Nat × T)) (a : Nat) :
    (l.map f).find? (fun av => av.1 == a) = (l.find? (fun av => av.1 == a)).map f := by
  have hfun : ((fun av : Nat × T => av.1 == a) ∘ f) = (fun av : Nat × T => av.1 == a) := by
    funext av
    simp [Function.comp, hf]
  rw [List.find?_map, hfun]

/-- An address present in storage has a stored value. -/
theorem valueAt_of_mem (p : ObjectPool T) (h : Nat) (hmem : h ∈ addrs p) :
    ∃ v, valueAt p h = some v := by
  obtain ⟨av, hav, hfst⟩ := List.mem_map.mp hmem
  have : (p.items.find? (fun av => av.1 == h)).isSome := by
    rw [List.find?_isSome]
    exact ⟨av, hav, by simp [hfst]⟩
  obtain ⟨a, ha⟩ := Option.isSome_iff_exists.mp this
  exact ⟨a.2, by simp [valueAt, ha]⟩

/-- `release` maps the value stored at the released address through
`reset`. -/
theorem valueAt_release (P : Poolable T) (p : ObjectPool T) (h : Nat) :
    valueAt (release P p h) h = (valueAt p h).map P.reset := by
  unfold valueAt release
  rw [find?_map_fst _ (release_entry_fst P h)]
  cases hf : p.items.find? (fun av => av.1 == h) with
  | none => simp
  | some a =>
      have ha : a.1 = h := by
        have := List.find?_some hf
        simpa using this
      simp [ha]

/-- `release` leaves the value stored at every other address alone. -/
theorem valueAt_release_other (P : Poolable T) (p : ObjectPool T) (h a : Nat)
    (hne : a ≠ h) :
    valueAt (release P p h) a = valueAt p a := by
  unfold valueAt release
  rw [find?_map_fst _ (release_entry_fst P h)]
  cases hf : p.items.find? (fun av => av.1 == a) with
  | none => simp
  | some e =>
      have he : e.1 = a := by
        have := List.find?_some hf
        simpa using this
      simp [he, hne]

/-- `release_all` maps every stored value through `reset`. -/
theorem valueAt_release_all (P : Poolable T) (p : ObjectPool T) (a : Nat) :
    valueAt (release_all P p) a = (valueAt p a).map P.reset := by
  unfold valueAt release_all
  rw [find?_map_fst (fun av => (av.1, P.reset av.2)) (fun av => rfl)]
  cases hf : p.items.find? (fun av => av.1 == a) with
  | none => simp
  | some e => simp

/-- Unfolding the `reserve` loop: it appends `n` freshly constructed
entries at consecutive fresh addresses to storage, pushes those
addresses onto the free list (last constructed on top), and advances
the allocation counter by `n`. -/
theorem reserve_struct (P : Poolable T) :
    ∀ (n : Nat) (p : ObjectPool T),
      (reserve P p n).items
          = p.items ++ (List.range' p.nextAddr n).map (fun a => (a, P.new)) ∧
      (reserve P p n).available
          = (List.range' p.nextAddr n).reverse ++ p.available ∧
      (reserve P p n).nextAddr = p.nextAddr + n := by
  intro n
  induction n with
  | zero => intro p; simp [reserve]
  | succ n ih =>
      intro p
      obtain ⟨h1, h2, h3⟩ := ih (reserveOne P p)
      refine ⟨?_, ?_, ?_⟩
      · show (reserve P (reserveOne P p) n).items = _
        rw [h1]
        simp [reserveOne, List.range'_succ]
      · show (reserve P (reserveOne P p) n).available = _
        rw [h2]
        simp [reserveOne, List.range'_succ]
      · show (reserve P (reserveOne P p) n).nextAddr = _
        rw [h3]
        simp [reserveOne]
        omega

/-- Claim C1: the spec says `release_all()` on a pool with N outstanding
and M free instances rebuilds the free list so that afterwards
`available() == N+M == len()`.  The source never clears `available`
before pushing every storage handle, so with N = 0, M = 1 the pool ends
with `available() = 2` while `len() = 1`: the code diverges from its
evident intent at this input. -/
theorem C1_release_all_failing_eval :
    availableCount (release_all testPoolable (reserve testPoolable ObjectPool.mk0 1)) = 2 ∧
    lenCount (release_all testPoolable (reserve testPoolable ObjectPool.mk0 1)) = 1 := by
  constructor <;> rfl

/-- Claim C2: the spec invariant forbids a handle from appearing twice
on the free list, yet after `reserve(1)` followed by `release_all()`
(both public operations from a fresh pool) handle 0 sits on the free
list twice, because `release_all` pushes every storage handle without
removing the copies already there. -/
theorem C2_free_list_duplicate_after_release_all :
    (release_all testPoolable (reserve testPoolable ObjectPool.mk0 1)).available = [0, 0] ∧
    ¬ (release_all testPoolable (reserve testPoolable ObjectPool.mk0 1)).available.Nodup := by
  have hav : (release_all testPoolable (reserve testPoolable ObjectPool.mk0 1)).available
      = [0, 0] := rfl
  refine ⟨hav, ?_⟩
  rw [hav]
  decide

/-- Claim C3: `get` never fails; with a non-empty free list it pops the
top handle without touching storage (so no reset happens on checkout),
decreasing `available()` by one and keeping `len()` fixed; with an
empty free list it constructs one new instance, appends it to storage
(raising `len()` by one), and returns its handle while the free list
stays empty, so the handle never enters it. -/
theorem C3_get_spec (P : Poolable T) (p : ObjectPool T) :
    (∀ a rest, p.available = a :: rest →
        (get P p).1 = a ∧
        (get P p).2.items = p.items ∧
        (get P p).2.available = rest ∧
        availableCount p = availableCount (get P p).2 + 1 ∧
        lenCount (get P p).2 = lenCount p) ∧
    (p.available = [] →
        (get P p).2.items = p.items ++ [((get P p).1, P.new)] ∧
        lenCount (get P p).2 = lenCount p + 1 ∧
        (get P p).2.available = [] ∧
        (get P p).1 ∉ (get P p).2.available) := by
  obtain ⟨items, avail, na⟩ := p
  cases avail with
  | nil =>
      constructor
      · intro a rest hctr
        cases hctr
      · intro _
        refine ⟨rfl, ?_, rfl, ?_⟩
        · simp [get, lenCount]
        · simp [get]
  | cons a rest =>
      constructor
      · intro a2 rest2 heq
        injection heq with h1 h2
        subst h1
        subst h2
        exact ⟨rfl, rfl, rfl, rfl, rfl⟩
      · intro hctr
        cases hctr

/-- Witness for C3 at two concrete pools, one with free list `[5]` and
one freshly created. -/
theorem C3_get_spec_witness :
    ((get testPoolable poolW1).1 = 5 ∧
     (get testPoolable poolW1).2.items = poolW1.items ∧
     (get testPoolable poolW1).2.available = [] ∧
     availableCount poolW1 = availableCount (get testPoolable poolW1).2 + 1 ∧
     lenCount (get testPoolable poolW1).2 = lenCount poolW1) ∧
    ((get testPoolable pool0).2.items
        = pool0.items ++ [((get testPoolable pool0).1, testPoolable.new)] ∧
     lenCount (get testPoolable pool0).2 = lenCount pool0 + 1 ∧
     (get testPoolable pool0).2.available = [] ∧
     (get testPoolable pool0).1 ∉ (get testPoolable pool0).2.available) :=
  ⟨(C3_get_spec testPoolable poolW1).1 5 [] rfl,
   (C3_get_spec testPoolable pool0).2 rfl⟩

/-- Claim C4: dropping a PoolBox whose tracked handle is not the null
sentinel performs exactly one `release` of that handle on the owning
pool; dropping a PoolBox after `extract` performs no release and leaves
the pool untouched.  (That the drop glue runs once on every scope-exit
path, including early return and unwind, is the host language's drop
guarantee; the embedded `dropPoolBox` is its body.) -/
theorem C4_drop_spec (P : Poolable T) (pool : ObjectPool T) (pb : PoolBox) (h : Nat) :
    (pb.item = some h → dropPoolBox P pb pool = release P pool h) ∧
    dropPoolBox P (extract pb).2 pool = pool := by
  refine ⟨fun he => ?_, rfl⟩
  simp [dropPoolBox, he]

/-- Witness for C4 with a PoolBox tracking handle 3 over a concrete
pool. -/
theorem C4_drop_spec_witness :
    ((⟨some 3⟩ : PoolBox).item = some 3 ∧
     dropPoolBox testPoolable (⟨some 3⟩ : PoolBox) poolW2 = release testPoolable poolW2 3) ∧
    dropPoolBox testPoolable (extract (⟨some 3⟩ : PoolBox)).2 poolW2 = poolW2 :=
  ⟨⟨rfl, (C4_drop_spec testPoolable poolW2 ⟨some 3⟩ 3).1 rfl⟩,
   (C4_drop_spec testPoolable poolW2 ⟨some 3⟩ 3).2⟩

/-- Claim C5: for an outstanding handle, `release` resets the instance
the handle refers to and pushes the handle onto the free list, raising
`available()` by exactly one. -/
theorem C5_release_spec (P : Poolable T) (p : ObjectPool T) (h : Nat)
    (_hout : Outstanding p h) :
    valueAt (release P p h) h = (valueAt p h).map P.reset ∧
    (release P p h).available = h :: p.available ∧
    availableCount (release P p h) = availableCount p + 1 :=
  ⟨valueAt_release P p h, rfl, rfl⟩

/-- Witness for C5: handle 3 is outstanding in `poolW2` and releasing
it behaves as stated. -/
theorem C5_release_spec_witness :
    Outstanding poolW2 3 ∧
    (valueAt (release testPoolable poolW2 3) 3
        = (valueAt poolW2 3).map testPoolable.reset ∧
     (release testPoolable poolW2 3).available = 3 :: poolW2.available ∧
     availableCount (release testPoolable poolW2 3) = availableCount poolW2 + 1) :=
  ⟨⟨by decide, by decide⟩,
   C5_release_spec testPoolable poolW2 3 ⟨by decide, by decide⟩⟩

/-- Claim C6: `extract` returns the tracked raw handle, replaces it
with the null sentinel, and the extracted wrapper's drop leaves the
pool — its counters, free list and every stored value, mutated or not —
unchanged. -/
theorem C6_extract_spec (P : Poolable T) (pool : ObjectPool T) (pb : PoolBox) :
    (extract pb).1 = pb.item ∧
    (extract pb).2.item = none ∧
    dropPoolBox P (extract pb).2 pool = pool ∧
    ∀ a, valueAt (dropPoolBox P (extract pb).2 pool) a = valueAt pool a :=
  ⟨rfl, rfl, rfl, fun _ => rfl⟩

/-- Claim C7: `reserve n` constructs `n` new instances, appends them to
storage and pushes their fresh handles onto the free list, increasing
both `len()` and `available()` by exactly `n`, from any prior state and
with no error condition. -/
theorem C7_reserve_spec (P : Poolable T) (p : ObjectPool T) (n : Nat) :
    lenCount (reserve P p n) = lenCount p + n ∧
    availableCount (reserve P p n) = availableCount p + n ∧
    (reserve P p n).items
        = p.items ++ (List.range' p.nextAddr n).map (fun a => (a, P.new)) ∧
    (reserve P p n).available
        = (List.range' p.nextAddr n).reverse ++ p.available := by
  obtain ⟨h1, h2, h3⟩ := reserve_struct P n p
  refine ⟨?_, ?_, h1, h2⟩
  · rw [lenCount, h1]
    simp [lenCount]
  · rw [availableCount, h2]
    simp [availableCount]
    omega

/-- Claim C8: releasing an outstanding handle and immediately calling
`get` hands back the same instance in the default state produced by
construct/reset, provided the stored type's reset restores that default
state. -/
theorem C8_release_get_roundtrip (P : Poolable T) (p : ObjectPool T) (h : Nat)
    (hmem : h ∈ addrs p) (hreset : ∀ v, P.reset v = P.new) :
    (get P (release P p h)).1 = h ∧
    valueAt (get P (release P p h)).2 h = some P.new := by
  refine ⟨rfl, ?_⟩
  have hv : valueAt (get P (release P p h)).2 h = valueAt (release P p h) h := rfl
  rw [hv, valueAt_release]
  obtain ⟨v, hval⟩ := valueAt_of_mem p h hmem
  rw [hval]
  simp [hreset]

/-- Witness for C8 with the test Poolable, whose reset always restores
the constructed default 0. -/
theorem C8_release_get_roundtrip_witness :
    3 ∈ addrs poolW2 ∧
    (get testPoolable (release testPoolable poolW2 3)).1 = 3 ∧
    valueAt (get testPoolable (release testPoolable poolW2 3)).2 3 = some testPoolable.new :=
  ⟨by decide,
   (C8_release_get_roundtrip testPoolable poolW2 3 (by decide) (fun _ => rfl)).1,
   (C8_release_get_roundtrip testPoolable poolW2 3 (by decide) (fun _ => rfl)).2⟩

/-- Claim C9: the free list is a LIFO stack; `get` immediately after
`release h`, with nothing in between, returns `h` itself and restores
the free list to what it was before the release. -/
theorem C9_lifo (P : Poolable T) (p : ObjectPool T) (h : Nat) :
    (get P (release P p h)).1 = h ∧
    (get P (release P p h)).2.available = p.available :=
  ⟨rfl, rfl⟩

/-- Claim C10: neither `release` nor `release_all` changes the storage
address sequence or `len()`; values change only by the in-place reset
(the released handle for `release`, every entry for `release_all`);
all other mutation is confined to the free list. -/
theorem C10_storage_frame (P : Poolable T) (p : ObjectPool T) (h : Nat) :
    addrs (release P p h) = addrs p ∧
    lenCount (release P p h) = lenCount p ∧
    (∀ a, a ≠ h → valueAt (release P p h) a = valueAt p a) ∧
    valueAt (release P p h) h = (valueAt p h).map P.reset ∧
    addrs (release_all P p) = addrs p ∧
    lenCount (release_all P p) = lenCount p ∧
    ∀ a, valueAt (release_all P p) a = (valueAt p a).map P.reset := by
  refine ⟨?_, ?_, fun a hne => valueAt_release_other P p h a hne,
    valueAt_release P p h, ?_, ?_, fun a => valueAt_release_all P p a⟩
  · unfold addrs release
    rw [List.map_map]
    have hfun : (Prod.fst ∘ fun av : Nat × T => if av.1 = h then (av.1, P.reset av.2) else av)
        = Prod.fst := by
      funext av
      simp [Function.comp, release_entry_fst]
    rw [hfun]
  · simp [lenCount, release]
  · unfold addrs release_all
    rw [List.map_map]
    rfl
  · simp [lenCount, release_all]

/-- Witness for C10: a value at an address other than the released one
is untouched, and storage addresses survive `release_all`. -/
theorem C10_storage_frame_witness :
    (9 : Nat) ≠ 5 ∧
    valueAt (release testPoolable poolW1 5) 9 = valueAt poolW1 9 ∧
    addrs (release_all testPoolable poolW1) = addrs poolW1 :=
  ⟨by decide,
   (C10_storage_frame testPoolable poolW1 5).2.2.1 9 (by decide),
   (C10_storage_frame testPoolable poolW1 5).2.2.2.2.1⟩

end ObjectPoolRs
